import Mathlib

/-!
Verification of the batch request orchestrator and beam-search engine of
`vllm/entrypoints/llm.py` (class `LLM`).

The embedding follows the source:
* `LLM._validate_and_add_requests`, `LLM._add_request`, `LLM._add_guided_params`
  (submission pipeline), `LLM._run_engine` (drain loop + output collator);
* `LLM.beam_search` and `LLM._get_beam_search_lora_requests`.

Caller-owned `SamplingParams` objects are Python references; we model the heap
explicitly as a store (a list of `SamplingParams` values) and parameter
arguments as indices (`ref`) into that store, so that in-place mutation and
sharing are expressible.  The stepping engine is external: we model it as a
pending set of submitted requests, each with an engine-chosen number of
remaining ticks (a `durations` oracle); one `step()` decrements every pending
request and reports the ones that finished.  Floating-point quantities
(log-probabilities) are modelled as rationals.
-/

namespace VLLM

/-- `RequestOutputKind` from `vllm.sampling_params`. -/
inductive RequestOutputKind
  | cumulative
  | delta
  | finalOnly
deriving DecidableEq, Repr, Inhabited

/-- `SamplingParams`, restricted to the fields the orchestrator reads or
writes: `output_kind` (overwritten to `FINAL_ONLY` before submission) and
`guided_decoding` (written by `_add_guided_params`).  All remaining sampling
fields are opaque to the orchestrator and collapsed into `rest`. -/
structure SamplingParams where
  output_kind : RequestOutputKind
  guided_decoding : Option Nat
  rest : Nat
deriving DecidableEq, Repr, Inhabited

/-- The heap of caller-owned `SamplingParams` objects; a Python object
reference is an index into this store. -/
abbrev SPStore := List SamplingParams

/-- A per-request parameter value: a reference to a caller-owned
`SamplingParams` object, or an (opaque, unmutated) `PoolingParams` value. -/
inductive ParamValue
  | sampling (ref : Nat)
  | pooling (pp : Nat)
deriving DecidableEq, Repr

/-- The `params` argument of `_validate_and_add_requests`: a single value
(broadcast to all prompts) or a sequence. -/
inductive ParamsArg
  | single (p : ParamValue)
  | listOf (ps : List ParamValue)
deriving DecidableEq, Repr

/-- `params if isinstance(params, Sequence) else (params,)` — the iteration
order of the `output_kind` mutation loop. -/
def ParamsArg.iter : ParamsArg → List ParamValue
  | .single p => [p]
  | .listOf ps => ps

/-- The `lora_request` argument: `None`, a single `LoRARequest` (broadcast),
or a sequence.  A `LoRARequest` is opaque; we use a `Nat` handle. -/
inductive LoraArg
  | noneArg
  | single (lr : Nat)
  | listOf (lrs : List Nat)
deriving DecidableEq, Repr

/-- A prompt payload.  The submission pipeline never inspects prompts, it only
forwards them, so the payload is opaque. -/
abbrev Prompt := Nat

/-- The `prompts` argument: a single prompt (a `str` or prompt dict, wrapped
into a one-element list by `_validate_and_add_requests`) or a sequence. -/
inductive PromptsArg
  | single (p : Prompt)
  | listOf (ps : List Prompt)
deriving DecidableEq, Repr

/-- The `if isinstance(prompts, (str, dict)): prompts = [prompts]`
normalization. -/
def PromptsArg.toList : PromptsArg → List Prompt
  | .single p => [p]
  | .listOf ps => ps

/-- One request as received by `llm_engine.add_request` (the engine's
unfinished set grows by one per call).  `request_id` is the numeric value of
the string id (`str(next(self.request_counter))`; `int ∘ str` is the identity
on naturals). -/
structure EngineRequest where
  request_id : Nat
  prompt : Prompt
  params : ParamValue
  lora_request : Option Nat
  priority : Nat
deriving DecidableEq, Repr

/-- The orchestrator state visible to the claims.

Modelled from the spec: `vllm.utils.Counter` (imported by `llm.py`, not under
`src/`) is a process-wide monotonically increasing integer generator; `next`
returns the current value and increments it.  We hold its next value in
`counter`.  `engine` is the stepping engine's unfinished-request set, in
submission order. -/
structure LLMState where
  counter : Nat
  engine : List EngineRequest
deriving DecidableEq, Repr

/-- `LLM._add_request`: draw the next identifier from the request counter and
hand the request to the engine. -/
def add_request (st : LLMState) (prompt : Prompt) (params : ParamValue)
    (lora_request : Option Nat) (priority : Nat) : LLMState :=
  { counter := st.counter + 1,
    engine := st.engine ++
      [{ request_id := st.counter, prompt := prompt, params := params,
         lora_request := lora_request, priority := priority }] }

/-- `LLM._add_guided_params` acting on the store at reference `ref`: no-op
when no guided options were supplied; otherwise fail if the params already
carry `guided_decoding`, else write a `GuidedDecodingParams` value (opaque)
into the object. -/
def add_guided_params (store : SPStore) (ref : Nat) (guided_options : Option Nat) :
    Except String SPStore :=
  match guided_options with
  | none => .ok store
  | some g =>
      let p := store.getD ref default
      if p.guided_decoding.isSome then
        .error "Cannot set both guided_options_request and params.guided_decoding."
      else
        .ok (store.set ref { p with guided_decoding := some g })

/-- The mutation loop of `_validate_and_add_requests` (lines 1501–1506): for
each `SamplingParams` in the params argument, apply `_add_guided_params` and
then set `sp.output_kind = RequestOutputKind.FINAL_ONLY` in place.  Returns
the store together with the error raised, if any (mutations performed before
the error are kept, as in Python). -/
def forceFinalOnly (guided_options : Option Nat) :
    SPStore → List ParamValue → SPStore × Option String
  | store, [] => (store, none)
  | store, .pooling _ :: rest => forceFinalOnly guided_options store rest
  | store, .sampling ref :: rest =>
      match add_guided_params store ref guided_options with
      | .error e => (store, some e)
      | .ok store1 =>
          let store2 :=
            store1.set ref { store1.getD ref default with output_kind := .finalOnly }
          forceFinalOnly guided_options store2 rest

/-- `params[i] if isinstance(params, Sequence) else params`.  Under the length
validation the index is always in range; the default is unreachable. -/
def paramAt (params : ParamsArg) (i : Nat) : ParamValue :=
  match params with
  | .single p => p
  | .listOf ps => ps.getD i (.pooling 0)

/-- `lora_request[i] if isinstance(lora_request, Sequence) else lora_request`. -/
def loraAt (loraArg : LoraArg) (i : Nat) : Option Nat :=
  match loraArg with
  | .noneArg => none
  | .single lr => some lr
  | .listOf lrs => lrs.getD i 0

/-- `priority[i] if priority else 0`: `None` and the empty list are falsy and
yield 0; a non-empty list is indexed and can raise `IndexError` (`none`). -/
def priorityAt (priority : Option (List Nat)) (i : Nat) : Option Nat :=
  match priority with
  | none => some 0
  | some [] => some 0
  | some (p :: pr) => (p :: pr).get? i

/-- The submission loop of `_validate_and_add_requests` (lines 1514–1524):
`for i, prompt in enumerate(prompts): self._add_request(...)`.  Returns the
state reached together with the error raised, if any; requests submitted
before an `IndexError` on `priority[i]` stay submitted. -/
def submitLoop (params : ParamsArg) (loraArg : LoraArg)
    (priority : Option (List Nat)) :
    List Prompt → Nat → LLMState → LLMState × Option String
  | [], _, st => (st, none)
  | p :: rest, i, st =>
      match priorityAt priority i with
      | none => (st, some "IndexError: list index out of range")
      | some pr =>
          submitLoop params loraArg priority rest (i + 1)
            (add_request st p (paramAt params i) (loraAt loraArg i) pr)

/-- `LLM._validate_and_add_requests`: normalize the prompts argument, check
the lengths of sequence-valued `params` and `lora_request` against the number
of prompts, force `FINAL_ONLY` on every supplied `SamplingParams`, then submit
every prompt to the engine in order.  Returns the final `(store, state)`
together with the error raised, if any. -/
def validate_and_add_requests (prompts : PromptsArg) (params : ParamsArg)
    (loraArg : LoraArg) (guided_options : Option Nat)
    (priority : Option (List Nat)) (store : SPStore) (st : LLMState) :
    (SPStore × LLMState) × Option String :=
  let ps := prompts.toList
  let num_requests := ps.length
  match params with
  | .listOf l =>
      if l.length ≠ num_requests then
        ((store, st), some "The lengths of prompts and params must be the same.")
      else
        validateLora ps params loraArg guided_options priority store st
  | .single _ => validateLora ps params loraArg guided_options priority store st
where
  validateLora (ps : List Prompt) (params : ParamsArg) (loraArg : LoraArg)
      (guided_options : Option Nat) (priority : Option (List Nat))
      (store : SPStore) (st : LLMState) : (SPStore × LLMState) × Option String :=
    match loraArg with
    | .listOf ls =>
        if ls.length ≠ ps.length then
          ((store, st), some "The lengths of prompts and lora_request must be the same.")
        else
          mutateAndSubmit ps params loraArg guided_options priority store st
    | _ => mutateAndSubmit ps params loraArg guided_options priority store st
  mutateAndSubmit (ps : List Prompt) (params : ParamsArg) (loraArg : LoraArg)
      (guided_options : Option Nat) (priority : Option (List Nat))
      (store : SPStore) (st : LLMState) : (SPStore × LLMState) × Option String :=
    match forceFinalOnly guided_options store params.iter with
    | (store1, some e) => ((store1, st), some e)
    | (store1, none) =>
        match submitLoop params loraArg priority ps 0 st with
        | (st1, err) => ((store1, st1), err)

/-- One per-request status update returned by an engine tick
(`RequestOutput`/`PoolingRequestOutput` restricted to what the drain loop
reads: the identifier, the `finished` flag, and the request payload it refers
to). -/
structure StepOutput where
  request_id : Nat
  finished : Bool
  prompt : Prompt
deriving DecidableEq, Repr

/-- The engine's pending set: each unfinished request paired with the number
of further ticks the engine will take to finish it (engine-internal, supplied
by a `durations` oracle).  One `llm_engine.step()` advances every pending
request by one tick and reports a status update for each; a request whose
remaining count reaches zero is finished and leaves the pending set. -/
def engineStep (pending : List (EngineRequest × Nat)) :
    List StepOutput × List (EngineRequest × Nat) :=
  let stepped := pending.map (fun rd => (rd.1, rd.2 - 1))
  (stepped.map (fun rd =>
     { request_id := rd.1.request_id, finished := rd.2 == 0, prompt := rd.1.prompt }),
   stepped.filter (fun rd => rd.2 != 0))

/-- Termination measure for the drain loop: total remaining ticks plus the
number of pending requests. -/
def pendingMeasure (pending : List (EngineRequest × Nat)) : Nat :=
  (pending.map (fun rd => rd.2 + 1)).sum

theorem pendingMeasure_engineStep_le (pending : List (EngineRequest × Nat)) :
    pendingMeasure (engineStep pending).2 ≤ (pending.map (fun rd => rd.2)).sum := by
  induction pending with
  | nil => simp [pendingMeasure, engineStep]
  | cons hd tl ih =>
      simp only [engineStep, pendingMeasure, List.map_cons, List.filter_cons] at *
      by_cases h : hd.2 - 1 = 0
      · simp only [h, bne_self_eq_false, List.sum_cons]
        exact le_trans ih (Nat.le_add_left _ _)
      · have hb : ((hd.2 - 1 : Nat) != 0) = true := by simpa using h
        simp only [hb, if_true, List.map_cons, List.sum_cons]
        have h3 : hd.2 - 1 + 1 = hd.2 := by omega
        rw [h3]
        exact Nat.add_le_add_left ih hd.2

theorem pendingMeasure_eq (pending : List (EngineRequest × Nat)) :
    pendingMeasure pending = (pending.map (fun rd => rd.2)).sum + pending.length := by
  induction pending with
  | nil => simp [pendingMeasure]
  | cons hd tl ih =>
      simp only [pendingMeasure, List.map_cons, List.sum_cons, List.length_cons] at *
      omega

theorem pendingMeasure_engineStep_lt (pending : List (EngineRequest × Nat))
    (h : pending ≠ []) :
    pendingMeasure (engineStep pending).2 < pendingMeasure pending := by
  have h1 := pendingMeasure_engineStep_le pending
  have h2 := pendingMeasure_eq pending
  have h3 : 1 ≤ pending.length := by
    cases pending with
    | nil => exact absurd rfl h
    | cons a l => simp
  omega

/-- The drain loop of `LLM._run_engine`:
`while self.llm_engine.has_unfinished_requests(): step_outputs = self.llm_engine.step(); ...`
accumulating the updates whose `finished` flag is set, in arrival order. -/
def runEngineLoop (pending : List (EngineRequest × Nat)) (acc : List StepOutput) :
    List StepOutput :=
  if hp : pending = [] then acc
  else
    runEngineLoop (engineStep pending).2
      (acc ++ (engineStep pending).1.filter (fun o => o.finished))
termination_by pendingMeasure pending
decreasing_by exact pendingMeasure_engineStep_lt pending hp

/-- The output collator at the tail of `LLM._run_engine`:
`sorted(outputs, key=lambda x: int(x.request_id))` (ascending numeric
identifier; Python's `sorted` is stable, as is `mergeSort`). -/
def sortByRequestId (outs : List StepOutput) : List StepOutput :=
  outs.mergeSort (fun a b => decide (a.request_id ≤ b.request_id))

/-- `LLM._run_engine`: drain the engine, then sort the finished outputs by
numeric request identifier.  `durations` is the engine-internal number of
ticks each submitted request takes to finish. -/
def run_engine (durations : Nat → Nat) (st : LLMState) : List StepOutput :=
  sortByRequestId
    (runEngineLoop (st.engine.map (fun r => (r, durations r.request_id))) [])

/-! ### Beam search (`LLM.beam_search`)

The per-position log-probability dictionary returned by the engine for one
generated token (`result.outputs[0].logprobs[0]`, a `dict[int, Logprob]`) is
modelled as an association list in insertion order; `Logprob.logprob` becomes
a rational.  The engine behind `self.generate` is modelled by an oracle that,
given the step index and the submitted flattened batch, returns one result
per submitted beam: `some logprobs`, or `none` for
`result.outputs[0].logprobs is None` (sequence ended for an external reason
such as max-model-len or abortion).  The sort key produced by
`create_sort_beams_key_function` (imported from `vllm.beam_search`, not under
`src/`) is kept abstract as a parameter `sortKey`. -/

/-- One per-token log-probability dictionary (`dict[int, Logprob]`). -/
abbrev Logprobs := List (Nat × ℚ)

/-- `vllm.beam_search.BeamSearchSequence`, restricted to the fields
`beam_search` reads or writes. -/
structure BeamSearchSequence where
  tokens : List Nat
  logprobs : List Logprobs
  cum_logprob : ℚ
  text : Option String
  multi_modal_data : Option Nat
  mm_processor_kwargs : Option Nat
  lora_request : Option Nat
deriving DecidableEq, Repr

/-- `vllm.beam_search.BeamSearchInstance`: the ordered active-beam list and
the completed list of one input prompt. -/
structure BeamSearchInstance where
  beams : List BeamSearchSequence
  completed : List BeamSearchSequence
deriving DecidableEq, Repr

/-- `vllm.beam_search.BeamSearchOutput`. -/
structure BeamSearchOutput where
  sequences : List BeamSearchSequence
deriving DecidableEq, Repr

/-- A beam-search input prompt (`TokensPrompt` or `TextPrompt`, with the
optional multimodal payload fields that `beam_search` copies through). -/
inductive BSPrompt
  | tokens (ids : List Nat) (mmd mmk : Option Nat)
  | text (s : String) (mmd mmk : Option Nat)
deriving DecidableEq, Repr

/-- Lines 640–644: take `prompt["prompt_token_ids"]` when present, else
`tokenizer.encode(prompt["prompt"])`. -/
def promptTokensOf (encode : String → List Nat) : BSPrompt → List Nat
  | .tokens ids _ _ => ids
  | .text s _ _ => encode s

/-- Lines 633–635: `multi_modal_data` if present in the prompt. -/
def mmdOf : BSPrompt → Option Nat
  | .tokens _ mmd _ => mmd
  | .text _ mmd _ => mmd

/-- Lines 636–638: `mm_processor_kwargs` if present in the prompt. -/
def mmkOf : BSPrompt → Option Nat
  | .tokens _ _ mmk => mmk
  | .text _ _ mmk => mmk

/-- Modelled from the spec: the `BeamSearchInstance` constructor lives in
`vllm.beam_search`, which is imported by `llm.py` but is not under `src/`.
Per §3 of the spec, an instance is created once per input prompt, holding the
original prompt tokens as its single initial active beam (zero cumulative
log-probability, no retained per-step log-probabilities, the instance's fixed
adapter handle) and an empty completed list. -/
def initInstance (promptTokens : List Nat) (lora : Option Nat)
    (mmd mmk : Option Nat) : BeamSearchInstance :=
  { beams := [{ tokens := promptTokens, logprobs := [], cum_logprob := 0,
                text := none, multi_modal_data := mmd,
                mm_processor_kwargs := mmk, lora_request := lora }],
    completed := [] }

/-- `LLM._get_beam_search_lora_requests`: reject a sequence-valued
`lora_request` whose length differs from the prompt count; broadcast `None`
or a single request; any surviving sequence falls through to the
`TypeError`. -/
def get_beam_search_lora_requests (loraArg : LoraArg)
    (prompts : List BSPrompt) : Except String (List (Option Nat)) :=
  match loraArg with
  | .listOf lrs =>
      if lrs.length ≠ prompts.length then
        .error "Lora request list should be the same length as the prompts"
      else
        .error "Invalid lora_request type"
  | .noneArg => .ok (List.replicate prompts.length none)
  | .single lr => .ok (List.replicate prompts.length (some lr))

/-- Lines 702–710: the candidate built from `current_beam` and one
`(token_id, logprob_obj)` entry of its per-position dictionary `lps`: token
appended, dictionary appended to the retained log-probabilities, cumulative
log-probability summed, adapter handle and multimodal payload inherited. -/
def newBeam (parent : BeamSearchSequence) (lps : Logprobs) (entry : Nat × ℚ) :
    BeamSearchSequence :=
  { tokens := parent.tokens ++ [entry.1],
    logprobs := parent.logprobs ++ [lps],
    cum_logprob := parent.cum_logprob + entry.2,
    text := none,
    multi_modal_data := parent.multi_modal_data,
    mm_processor_kwargs := parent.mm_processor_kwargs,
    lora_request := parent.lora_request }

/-- Whether a candidate with appended token `tid` is routed to the completed
list (lines 712–714): `token_id == tokenizer.eos_token_id and not ignore_eos`. -/
def eosDone (eos : Nat) (ignoreEos : Bool) (tid : Nat) : Bool :=
  tid == eos && !ignoreEos

/-- Lines 696–716 for a single parent beam: no candidates when the engine
returned no log-probabilities; otherwise one candidate per dictionary entry in
insertion order, split into (additions to the active candidate list, additions
to the completed list). -/
def expandBeam (eos : Nat) (ignoreEos : Bool) (parent : BeamSearchSequence)
    (res : Option Logprobs) :
    List BeamSearchSequence × List BeamSearchSequence :=
  match res with
  | none => ([], [])
  | some lps =>
      ((lps.filter (fun e => !eosDone eos ignoreEos e.1)).map (newBeam parent lps),
       (lps.filter (fun e => eosDone eos ignoreEos e.1)).map (newBeam parent lps))

/-- `sorted(_, key=sort_beams_key, reverse=True)`: descending by key, stable. -/
def sortBeamsDesc (sortKey : BeamSearchSequence → ℚ)
    (l : List BeamSearchSequence) : List BeamSearchSequence :=
  l.mergeSort (fun a b => decide (sortKey b ≤ sortKey a))

/-- Lines 689–720 for one instance: expand each of its active beams with its
own slice of the batched output (`output[start:end]` pairs positionally with
`instance.beams`), extend the completed list, then sort the surviving
candidates by the key, descending, and keep the top `beam_width`. -/
def stepInstance (eos : Nat) (ignoreEos : Bool) (beamWidth : Nat)
    (sortKey : BeamSearchSequence → ℚ) (inst : BeamSearchInstance)
    (results : List (Option Logprobs)) : BeamSearchInstance :=
  let expanded := (inst.beams.zip results).map
    (fun pr => expandBeam eos ignoreEos pr.1 pr.2)
  let instanceNewBeams := (expanded.map Prod.fst).flatten
  let newlyCompleted := (expanded.map Prod.snd).flatten
  { beams := (sortBeamsDesc sortKey instanceNewBeams).take beamWidth,
    completed := inst.completed ++ newlyCompleted }

/-- The per-instance pass over `instance_start_and_end` (lines 689–720): the
batched output is consumed instance by instance, `instance.beams.length`
results each, in order — the position ranges `[start, end)` computed from the
prefix sums at lines 668–672. -/
def stepAllInstances (eos : Nat) (ignoreEos : Bool) (beamWidth : Nat)
    (sortKey : BeamSearchSequence → ℚ) :
    List BeamSearchInstance → List (Option Logprobs) → List BeamSearchInstance
  | [], _ => []
  | inst :: rest, results =>
      stepInstance eos ignoreEos beamWidth sortKey inst
          (results.take inst.beams.length)
        :: stepAllInstances eos ignoreEos beamWidth sortKey rest
          (results.drop inst.beams.length)

/-- Line 666–667: `all_beams = list(sum((instance.beams for instance in
instances), []))`. -/
def allActiveBeams (instances : List BeamSearchInstance) :
    List BeamSearchSequence :=
  (instances.map (fun inst => inst.beams)).flatten

/-- The step loop of `beam_search` (lines 654–720): at most `fuel` iterations
(`for _ in range(max_tokens)`), breaking as soon as the flattened active-beam
list is empty.  `k` is the current step index (fed to the engine oracle).
Returns the final instances together with the trace of flattened batches
submitted to the engine, one entry per executed step. -/
def beamSearchLoop (eos : Nat) (ignoreEos : Bool) (beamWidth : Nat)
    (sortKey : BeamSearchSequence → ℚ)
    (oracle : Nat → List BeamSearchSequence → List (Option Logprobs)) :
    Nat → Nat → List BeamSearchInstance →
    List BeamSearchInstance × List (List BeamSearchSequence)
  | 0, _, instances => (instances, [])
  | fuel + 1, k, instances =>
      let allBeams := allActiveBeams instances
      if allBeams.isEmpty then (instances, [])
      else
        let next := stepAllInstances eos ignoreEos beamWidth sortKey instances
          (oracle k allBeams)
        let rec1 := beamSearchLoop eos ignoreEos beamWidth sortKey oracle fuel
          (k + 1) next
        (rec1.1, allBeams :: rec1.2)

/-- Lines 722–732 for one instance: merge the remaining active beams into the
completed list, re-sort by the same key, keep the top `beam_width`, and decode
each surviving sequence. -/
def finalizeInstance (beamWidth : Nat) (sortKey : BeamSearchSequence → ℚ)
    (decode : List Nat → String) (inst : BeamSearchInstance) :
    BeamSearchOutput :=
  let sortedCompleted := sortBeamsDesc sortKey (inst.completed ++ inst.beams)
  let bestBeams := sortedCompleted.take beamWidth
  { sequences := bestBeams.map (fun b => { b with text := some (decode b.tokens) }) }

/-- `BeamSearchParams`, restricted to the fields `beam_search` consumes
directly.  `temperature` and `length_penalty` are floats consumed only
through the engine oracle and the abstract sort key. -/
structure BeamSearchParams where
  beam_width : Nat
  max_tokens : Nat
  ignore_eos : Bool
deriving DecidableEq, Repr

/-- `LLM.beam_search`: validate the adapter-handle argument, build one
instance per prompt, run the step loop, then finalize each instance in input
order.  The second component is the trace of flattened batches submitted to
the engine (empty when validation failed: nothing was submitted). -/
def beam_search (encode : String → List Nat) (decode : List Nat → String)
    (eos : Nat) (sortKey : BeamSearchSequence → ℚ)
    (oracle : Nat → List BeamSearchSequence → List (Option Logprobs))
    (prompts : List BSPrompt) (params : BeamSearchParams)
    (loraArg : LoraArg) :
    Except String (List BeamSearchOutput) × List (List BeamSearchSequence) :=
  match get_beam_search_lora_requests loraArg prompts with
  | .error e => (.error e, [])
  | .ok loraRequests =>
      let instances := (loraRequests.zip prompts).map
        (fun lp => initInstance (promptTokensOf encode lp.2) lp.1
          (mmdOf lp.2) (mmkOf lp.2))
      let res := beamSearchLoop eos params.ignore_eos params.beam_width sortKey
        oracle params.max_tokens 0 instances
      (.ok (res.1.map (finalizeInstance params.beam_width sortKey decode)),
       res.2)

/-! ### Helper lemmas -/

theorem length_beams_stepInstance (eos : Nat) (ignoreEos : Bool) (beamWidth : Nat)
    (sortKey : BeamSearchSequence → ℚ) (inst : BeamSearchInstance)
    (results : List (Option Logprobs)) :
    (stepInstance eos ignoreEos beamWidth sortKey inst results).beams.length ≤ beamWidth := by
  simp only [stepInstance, List.length_take]
  exact Nat.min_le_left _ _

theorem mem_stepAllInstances (eos : Nat) (ignoreEos : Bool) (beamWidth : Nat)
    (sortKey : BeamSearchSequence → ℚ) (instances : List BeamSearchInstance)
    (results : List (Option Logprobs)) (inst' : BeamSearchInstance)
    (h : inst' ∈ stepAllInstances eos ignoreEos beamWidth sortKey instances results) :
    ∃ inst ∈ instances, ∃ rs,
      inst' = stepInstance eos ignoreEos beamWidth sortKey inst rs := by
  induction instances generalizing results with
  | nil => simp [stepAllInstances] at h
  | cons hd tl ih =>
      simp only [stepAllInstances, List.mem_cons] at h
      rcases h with h | h
      · exact ⟨hd, by simp, _, h⟩
      · obtain ⟨inst, hmem, rs, hrs⟩ := ih _ h
        exact ⟨inst, by simp [hmem], rs, hrs⟩

theorem length_stepAllInstances (eos : Nat) (ignoreEos : Bool) (beamWidth : Nat)
    (sortKey : BeamSearchSequence → ℚ) (instances : List BeamSearchInstance)
    (results : List (Option Logprobs)) :
    (stepAllInstances eos ignoreEos beamWidth sortKey instances results).length =
      instances.length := by
  induction instances generalizing results with
  | nil => simp [stepAllInstances]
  | cons hd tl ih => simp [stepAllInstances, ih]

theorem length_beamSearchLoop (eos : Nat) (ignoreEos : Bool) (beamWidth : Nat)
    (sortKey : BeamSearchSequence → ℚ)
    (oracle : Nat → List BeamSearchSequence → List (Option Logprobs))
    (fuel k : Nat) (instances : List BeamSearchInstance) :
    (beamSearchLoop eos ignoreEos beamWidth sortKey oracle fuel k instances).1.length =
      instances.length := by
  induction fuel generalizing k instances with
  | zero => simp [beamSearchLoop]
  | succ n ih =>
      simp only [beamSearchLoop]
      by_cases h : (allActiveBeams instances).isEmpty
      · simp [h]
      · simp only [h, if_neg, Bool.false_eq_true, not_false_eq_true]
        rw [ih]
        exact length_stepAllInstances ..

/-- The loop preserves any per-instance predicate that every
`stepInstance` result satisfies unconditionally. -/
theorem beamSearchLoop_preserves (P : BeamSearchInstance → Prop)
    (eos : Nat) (ignoreEos : Bool) (beamWidth : Nat)
    (sortKey : BeamSearchSequence → ℚ)
    (oracle : Nat → List BeamSearchSequence → List (Option Logprobs))
    (hstep : ∀ inst rs, P (stepInstance eos ignoreEos beamWidth sortKey inst rs))
    (fuel k : Nat) (instances : List BeamSearchInstance)
    (hinit : ∀ inst ∈ instances, P inst) :
    ∀ inst ∈ (beamSearchLoop eos ignoreEos beamWidth sortKey oracle fuel k instances).1,
      P inst := by
  induction fuel generalizing k instances with
  | zero => simpa [beamSearchLoop] using hinit
  | succ n ih =>
      simp only [beamSearchLoop]
      by_cases h : (allActiveBeams instances).isEmpty
      · simpa [h] using hinit
      · simp only [h, Bool.false_eq_true, if_neg, not_false_eq_true]
        apply ih
        intro inst hmem
        obtain ⟨inst0, _, rs, hrs⟩ := mem_stepAllInstances _ _ _ _ _ _ _ hmem
        exact hrs ▸ hstep inst0 rs

theorem mem_expandBeam_active (eos : Nat) (ignoreEos : Bool)
    (parent : BeamSearchSequence) (res : Option Logprobs)
    (child : BeamSearchSequence)
    (h : child ∈ (expandBeam eos ignoreEos parent res).1) :
    ∃ lps, res = some lps ∧ ∃ e ∈ lps,
      eosDone eos ignoreEos e.1 = false ∧ child = newBeam parent lps e := by
  cases res with
  | none => simp [expandBeam] at h
  | some lps =>
      simp only [expandBeam, List.mem_map, List.mem_filter] at h
      obtain ⟨e, ⟨hmem, hfil⟩, hchild⟩ := h
      exact ⟨lps, rfl, e, hmem, by simpa using hfil, hchild.symm⟩

theorem mem_expandBeam_completed (eos : Nat) (ignoreEos : Bool)
    (parent : BeamSearchSequence) (res : Option Logprobs)
    (child : BeamSearchSequence)
    (h : child ∈ (expandBeam eos ignoreEos parent res).2) :
    ∃ lps, res = some lps ∧ ∃ e ∈ lps,
      eosDone eos ignoreEos e.1 = true ∧ child = newBeam parent lps e := by
  cases res with
  | none => simp [expandBeam] at h
  | some lps =>
      simp only [expandBeam, List.mem_map, List.mem_filter] at h
      obtain ⟨e, ⟨hmem, hfil⟩, hchild⟩ := h
      exact ⟨lps, rfl, e, hmem, hfil, hchild.symm⟩

theorem mem_beams_stepInstance (eos : Nat) (ignoreEos : Bool) (beamWidth : Nat)
    (sortKey : BeamSearchSequence → ℚ) (inst : BeamSearchInstance)
    (results : List (Option Logprobs)) (child : BeamSearchSequence)
    (h : child ∈ (stepInstance eos ignoreEos beamWidth sortKey inst results).beams) :
    ∃ parent ∈ inst.beams, ∃ res ∈ results,
      child ∈ (expandBeam eos ignoreEos parent res).1 := by
  simp only [stepInstance] at h
  have h1 : child ∈ sortBeamsDesc sortKey
      (((inst.beams.zip results).map
        (fun pr => expandBeam eos ignoreEos pr.1 pr.2)).map Prod.fst).flatten :=
    List.mem_of_mem_take h
  have h2 : child ∈ (((inst.beams.zip results).map
      (fun pr => expandBeam eos ignoreEos pr.1 pr.2)).map Prod.fst).flatten :=
    (List.mergeSort_perm _ _).mem_iff.mp h1
  simp only [List.mem_flatten, List.mem_map] at h2
  obtain ⟨l, ⟨⟨pr2, ⟨pr, hzip, hpr⟩, hfst⟩, hchild⟩⟩ := h2
  subst hpr hfst
  exact ⟨pr.1, (List.of_mem_zip hzip).1, pr.2, (List.of_mem_zip hzip).2, hchild⟩

theorem newBeam_getLast? (parent : BeamSearchSequence) (lps : Logprobs)
    (e : Nat × ℚ) : (newBeam parent lps e).tokens.getLast? = some e.1 := by
  simp [newBeam, List.getLast?_concat]

/-! ### Claims -/

/-- C5: For every beam-search instance and every step, after pruning the
instance's active-beam list has length at most `beam_width`; the sort-and-
truncate of each step establishes the bound, and the step loop preserves any
bound `c ≥ beam_width` it starts from, so the bound is never violated at any
point the loop observes the list. -/
theorem claim_C5_active_beams_bounded
    (eos : Nat) (ignoreEos : Bool) (beamWidth : Nat)
    (sortKey : BeamSearchSequence → ℚ)
    (oracle : Nat → List BeamSearchSequence → List (Option Logprobs))
    (fuel k c : Nat) (instances : List BeamSearchInstance)
    (hw : beamWidth ≤ c)
    (hinit : ∀ inst ∈ instances, inst.beams.length ≤ c) :
    (∀ inst rs,
      (stepInstance eos ignoreEos beamWidth sortKey inst rs).beams.length ≤ beamWidth) ∧
    (∀ inst ∈ (beamSearchLoop eos ignoreEos beamWidth sortKey oracle fuel k instances).1,
      inst.beams.length ≤ c) := by
  constructor
  · intro inst rs
    exact length_beams_stepInstance eos ignoreEos beamWidth sortKey inst rs
  · exact beamSearchLoop_preserves (fun inst => inst.beams.length ≤ c)
      eos ignoreEos beamWidth sortKey oracle
      (fun inst rs =>
        le_trans (length_beams_stepInstance eos ignoreEos beamWidth sortKey inst rs) hw)
      fuel k instances hinit

/-- Witness for C5 at a concrete input: one instance of one initial beam,
`beam_width = 1`, a two-candidate oracle, two steps. -/
theorem claim_C5_witness :
    (1 : Nat) ≤ 1 ∧
    (∀ inst ∈ [initInstance [5] none none none], inst.beams.length ≤ 1) ∧
    (∀ inst rs,
      (stepInstance 0 false 1 (fun b => b.cum_logprob) inst rs).beams.length ≤ 1) ∧
    (∀ inst ∈ (beamSearchLoop 0 false 1 (fun b => b.cum_logprob)
        (fun _ batch => batch.map (fun _ => some [(1, -1), (2, -2)])) 2 0
        [initInstance [5] none none none]).1,
      inst.beams.length ≤ 1) := by
  refine ⟨le_refl 1, ?_, ?_⟩
  · intro inst hmem
    simp only [List.mem_singleton] at hmem
    subst hmem
    decide
  · exact claim_C5_active_beams_bounded 0 false 1 (fun b => b.cum_logprob)
      (fun _ batch => batch.map (fun _ => some [(1, -1), (2, -2)])) 2 0 1
      [initInstance [5] none none none] (le_refl 1)
      (by intro inst hmem; simp only [List.mem_singleton] at hmem; subst hmem; decide)

/-- C9: The step loop executes at most `max_tokens` iterations (the trace of
submitted batches has at most `fuel` entries, and `beam_search` calls the loop
with `fuel = max_tokens`), and it exits immediately, performing no submission,
as soon as the flattened set of all instances' active beams is empty. -/
theorem claim_C9_loop_bounded_and_early_exit
    (eos : Nat) (ignoreEos : Bool) (beamWidth : Nat)
    (sortKey : BeamSearchSequence → ℚ)
    (oracle : Nat → List BeamSearchSequence → List (Option Logprobs))
    (fuel k : Nat) (instances : List BeamSearchInstance)
    (encode : String → List Nat) (decode : List Nat → String)
    (prompts : List BSPrompt) (params : BeamSearchParams) (loraArg : LoraArg) :
    (beamSearchLoop eos ignoreEos beamWidth sortKey oracle fuel k instances).2.length
      ≤ fuel ∧
    (allActiveBeams instances = [] →
      beamSearchLoop eos ignoreEos beamWidth sortKey oracle fuel k instances
        = (instances, [])) ∧
    (beam_search encode decode eos sortKey oracle prompts params loraArg).2.length
      ≤ params.max_tokens := by
  refine ⟨?_, ?_, ?_⟩
  · clear prompts params
    induction fuel generalizing k instances with
    | zero => simp [beamSearchLoop]
    | succ n ih =>
        simp only [beamSearchLoop]
        by_cases h : (allActiveBeams instances).isEmpty
        · simp [h]
        · simp only [h, Bool.false_eq_true, if_neg, not_false_eq_true,
            List.length_cons]
          exact Nat.succ_le_succ (ih ..)
  · intro h
    cases fuel with
    | zero => simp [beamSearchLoop]
    | succ n => simp [beamSearchLoop, h]
  · unfold beam_search
    cases hv : get_beam_search_lora_requests loraArg prompts with
    | error e => simp
    | ok loras =>
        simp only
        have : ∀ (fuel k : Nat) (insts : List BeamSearchInstance),
            (beamSearchLoop eos params.ignore_eos params.beam_width sortKey oracle
              fuel k insts).2.length ≤ fuel := by
          intro fuel
          induction fuel with
          | zero => intro k insts; simp [beamSearchLoop]
          | succ n ih =>
              intro k insts
              simp only [beamSearchLoop]
              by_cases h : (allActiveBeams insts).isEmpty
              · simp [h]
              · simp only [h, Bool.false_eq_true, if_neg, not_false_eq_true,
                  List.length_cons]
                exact Nat.succ_le_succ (ih ..)
        exact this params.max_tokens 0 _

/-- Witness for C9: the early-exit hypothesis discharged on an instance list
with no active beams. -/
theorem claim_C9_witness :
    allActiveBeams [(⟨[], [⟨[7], [], 0, none, none, none, none⟩]⟩ : BeamSearchInstance)] = []
      ∧ beamSearchLoop 3 false 2 (fun b => b.cum_logprob)
          (fun _ batch => batch.map (fun _ => some [(1, -1)])) 4 0
          [(⟨[], [⟨[7], [], 0, none, none, none, none⟩]⟩ : BeamSearchInstance)]
          = ([(⟨[], [⟨[7], [], 0, none, none, none, none⟩]⟩ : BeamSearchInstance)], []) := by
  constructor
  · decide
  · exact (claim_C9_loop_bounded_and_early_exit 3 false 2 (fun b => b.cum_logprob)
      (fun _ batch => batch.map (fun _ => some [(1, -1)])) 4 0
      [(⟨[], [⟨[7], [], 0, none, none, none, none⟩]⟩ : BeamSearchInstance)]
      (fun _ => []) (fun _ => "") [] ⟨2, 4, false⟩ .noneArg).2.1 (by decide)

/-- C7: A child candidate's cumulative log-probability is the parent's plus
the appended token's log-probability; under the hypothesis that every
per-token log-probability returned by the engine is ≤ 0 it is therefore ≤ the
parent's, at the level of one expansion (`newBeam`), of one parent's expansion
(`expandBeam`, active and completed routes alike), and of the pruned active
set a step leaves behind (`stepInstance`). -/
theorem claim_C7_cum_logprob_monotone
    (eos : Nat) (ignoreEos : Bool) (beamWidth : Nat)
    (sortKey : BeamSearchSequence → ℚ) (inst : BeamSearchInstance)
    (results : List (Option Logprobs)) (parent : BeamSearchSequence)
    (res : Option Logprobs) :
    (∀ lps entry, (newBeam parent lps entry).cum_logprob
      = parent.cum_logprob + entry.2) ∧
    (∀ lps entry, entry.2 ≤ 0 →
      (newBeam parent lps entry).cum_logprob ≤ parent.cum_logprob) ∧
    ((∀ lps, res = some lps → ∀ e ∈ lps, e.2 ≤ 0) →
      ∀ child ∈ (expandBeam eos ignoreEos parent res).1
        ++ (expandBeam eos ignoreEos parent res).2,
        child.cum_logprob ≤ parent.cum_logprob) ∧
    ((∀ r ∈ results, ∀ lps, r = some lps → ∀ e ∈ lps, e.2 ≤ 0) →
      ∀ child ∈ (stepInstance eos ignoreEos beamWidth sortKey inst results).beams,
        ∃ p ∈ inst.beams, child.cum_logprob ≤ p.cum_logprob) := by
  have hnew : ∀ lps entry, (newBeam parent lps entry).cum_logprob
      = parent.cum_logprob + entry.2 := fun lps entry => rfl
  have hle : ∀ (q : BeamSearchSequence) lps (entry : Nat × ℚ), entry.2 ≤ 0 →
      (newBeam q lps entry).cum_logprob ≤ q.cum_logprob := by
    intro q lps entry h
    simp only [newBeam]
    linarith
  refine ⟨hnew, fun lps entry h => hle parent lps entry h, ?_, ?_⟩
  · intro hres child hchild
    rcases List.mem_append.mp hchild with h | h
    · obtain ⟨lps, hsome, e, hmem, _, hc⟩ := mem_expandBeam_active _ _ _ _ _ h
      exact hc ▸ hle parent lps e (hres lps hsome e hmem)
    · obtain ⟨lps, hsome, e, hmem, _, hc⟩ := mem_expandBeam_completed _ _ _ _ _ h
      exact hc ▸ hle parent lps e (hres lps hsome e hmem)
  · intro hres child hchild
    obtain ⟨p, hp, r, hr, hc⟩ := mem_beams_stepInstance _ _ _ _ _ _ _ hchild
    obtain ⟨lps, hsome, e, hmem, _, hce⟩ := mem_expandBeam_active _ _ _ _ _ hc
    exact ⟨p, hp, hce ▸ hle p lps e (hres r hr lps hsome e hmem)⟩

/-- Witness for C7 at a concrete input: one parent beam with cumulative
log-probability −1, a two-entry dictionary with log-probabilities −1 and −2. -/
theorem claim_C7_witness :
    ((newBeam ⟨[5], [], -1, none, none, none, none⟩ [(1, -1), (2, -2)]
        (2, -2)).cum_logprob = (-1) + (-2)) ∧
    (∀ child ∈ (expandBeam 0 false ⟨[5], [], -1, none, none, none, none⟩
        (some [(1, -1), (2, -2)])).1
      ++ (expandBeam 0 false ⟨[5], [], -1, none, none, none, none⟩
        (some [(1, -1), (2, -2)])).2,
      child.cum_logprob ≤ (-1 : ℚ)) := by
  have h := claim_C7_cum_logprob_monotone 0 false 2 (fun b => b.cum_logprob)
    ⟨[⟨[5], [], -1, none, none, none, none⟩], []⟩
    [some [(1, -1), (2, -2)]] ⟨[5], [], -1, none, none, none, none⟩
    (some [(1, -1), (2, -2)])
  refine ⟨h.1 [(1, -1), (2, -2)] (2, -2), ?_⟩
  intro child hchild
  refine h.2.2.1 ?_ child hchild
  intro lps hsome e hmem
  cases hsome
  simp only [List.mem_cons, List.not_mem_nil, or_false] at hmem
  rcases hmem with rfl | rfl <;> norm_num

/-- C4: With `ignore_eos = False`, a candidate whose appended token is the
end-of-sequence token goes to the instance's completed list and not into the
active candidates; every active beam a step leaves behind ends in a
non-EOS token, and the loop preserves that property of active sets, so a
completed candidate is never extended in a later step. -/
theorem claim_C4_eos_candidate_completed
    (eos : Nat) (beamWidth : Nat) (sortKey : BeamSearchSequence → ℚ)
    (oracle : Nat → List BeamSearchSequence → List (Option Logprobs))
    (fuel k : Nat) (instances : List BeamSearchInstance)
    (inst : BeamSearchInstance) (results : List (Option Logprobs))
    (parent : BeamSearchSequence) (lps : Logprobs) (entry : Nat × ℚ)
    (res : Option Logprobs) :
    (entry ∈ lps → entry.1 = eos →
      newBeam parent lps entry ∈ (expandBeam eos false parent (some lps)).2 ∧
      newBeam parent lps entry ∉ (expandBeam eos false parent (some lps)).1) ∧
    ((parent, res) ∈ inst.beams.zip results → res = some lps → entry ∈ lps →
      entry.1 = eos →
      newBeam parent lps entry ∈
        (stepInstance eos false beamWidth sortKey inst results).completed) ∧
    (∀ b ∈ (stepInstance eos false beamWidth sortKey inst results).beams,
      b.tokens.getLast? ≠ some eos) ∧
    ((∀ i ∈ instances, ∀ b ∈ i.beams, b.tokens.getLast? ≠ some eos) →
      ∀ i ∈ (beamSearchLoop eos false beamWidth sortKey oracle fuel k instances).1,
        ∀ b ∈ i.beams, b.tokens.getLast? ≠ some eos) := by
  have hactive : ∀ (q : BeamSearchSequence) (r : Option Logprobs)
      (b : BeamSearchSequence), b ∈ (expandBeam eos false q r).1 →
      b.tokens.getLast? ≠ some eos := by
    intro q r b hb
    obtain ⟨lps1, _, e, _, hfil, hb1⟩ := mem_expandBeam_active _ _ _ _ _ hb
    have he : e.1 ≠ eos := by
      simpa [eosDone] using hfil
    rw [hb1, newBeam_getLast?]
    simpa using he
  have hstepbeams : ∀ (i : BeamSearchInstance) (rs : List (Option Logprobs)),
      ∀ b ∈ (stepInstance eos false beamWidth sortKey i rs).beams,
      b.tokens.getLast? ≠ some eos := by
    intro i rs b hb
    obtain ⟨p, _, r, _, hexp⟩ := mem_beams_stepInstance _ _ _ _ _ _ _ hb
    exact hactive p r b hexp
  refine ⟨?_, ?_, hstepbeams inst results, ?_⟩
  · intro hmem heos
    constructor
    · simp only [expandBeam, List.mem_map]
      refine ⟨entry, List.mem_filter.mpr ⟨hmem, ?_⟩, rfl⟩
      simp [eosDone, heos]
    · intro hc
      have := hactive parent (some lps) _ hc
      rw [newBeam_getLast?] at this
      exact this (by rw [heos])
  · intro hzip hres hmem heos
    subst hres
    simp only [stepInstance, List.mem_append]
    right
    simp only [List.mem_flatten, List.mem_map]
    refine ⟨(expandBeam eos false parent (some lps)).2,
      ⟨expandBeam eos false parent (some lps), ⟨(parent, some lps), hzip, rfl⟩, rfl⟩, ?_⟩
    simp only [expandBeam, List.mem_map]
    exact ⟨entry, List.mem_filter.mpr ⟨hmem, by simp [eosDone, heos]⟩, rfl⟩
  · intro hinit
    exact beamSearchLoop_preserves
      (fun i => ∀ b ∈ i.beams, b.tokens.getLast? ≠ some eos)
      eos false beamWidth sortKey oracle
      (fun i rs => hstepbeams i rs) fuel k instances hinit

/-- Witness for C4 at a concrete input: EOS token 9 appended to a one-beam
instance at step 1 lands in `completed` and is absent from the pruned active
set. -/
theorem claim_C4_witness :
    newBeam ⟨[5], [], 0, none, none, none, none⟩ [(9, -1), (2, -2)] (9, -1)
      ∈ (stepInstance 9 false 2 (fun b => b.cum_logprob)
          ⟨[⟨[5], [], 0, none, none, none, none⟩], []⟩
          [some [(9, -1), (2, -2)]]).completed ∧
    newBeam ⟨[5], [], 0, none, none, none, none⟩ [(9, -1), (2, -2)] (9, -1)
      ∉ (expandBeam 9 false ⟨[5], [], 0, none, none, none, none⟩
          (some [(9, -1), (2, -2)])).1 := by
  have h := claim_C4_eos_candidate_completed 9 2 (fun b => b.cum_logprob)
    (fun _ batch => batch.map (fun _ => some [(9, -1), (2, -2)])) 1 0
    [⟨[⟨[5], [], 0, none, none, none, none⟩], []⟩]
    ⟨[⟨[5], [], 0, none, none, none, none⟩], []⟩
    [some [(9, -1), (2, -2)]]
    ⟨[5], [], 0, none, none, none, none⟩ [(9, -1), (2, -2)] (9, -1)
    (some [(9, -1), (2, -2)])
  refine ⟨?_, (h.1 (by decide) rfl).2⟩
  exact h.2.1 (by decide) rfl (by decide) rfl

theorem forall₂_stepAllInstances {α : Type} (eos : Nat) (ignoreEos : Bool)
    (beamWidth : Nat) (sortKey : BeamSearchSequence → ℚ)
    (R S : α → BeamSearchInstance → Prop)
    (hstep : ∀ a inst rs, R a inst →
      S a (stepInstance eos ignoreEos beamWidth sortKey inst rs)) :
    ∀ {as : List α} {insts : List BeamSearchInstance}
      (rs : List (Option Logprobs)), List.Forall₂ R as insts →
      List.Forall₂ S as (stepAllInstances eos ignoreEos beamWidth sortKey insts rs) := by
  intro as insts rs h
  induction h generalizing rs with
  | nil => exact List.Forall₂.nil
  | cons hR _ ih =>
      exact List.Forall₂.cons (hstep _ _ _ hR) (ih _)

theorem beamSearchLoop_forall₂ {α : Type} (eos : Nat) (ignoreEos : Bool)
    (beamWidth : Nat) (sortKey : BeamSearchSequence → ℚ)
    (oracle : Nat → List BeamSearchSequence → List (Option Logprobs))
    (R : Nat → α → BeamSearchInstance → Prop)
    (hstep : ∀ j a inst rs, R j a inst →
      R (j + 1) a (stepInstance eos ignoreEos beamWidth sortKey inst rs)) :
    ∀ (fuel k j : Nat) (as : List α) (insts : List BeamSearchInstance),
      List.Forall₂ (R j) as insts →
      List.Forall₂
        (R (j + (beamSearchLoop eos ignoreEos beamWidth sortKey oracle
            fuel k insts).2.length))
        as
        (beamSearchLoop eos ignoreEos beamWidth sortKey oracle fuel k insts).1 := by
  intro fuel
  induction fuel with
  | zero => intro k j as insts h; simpa [beamSearchLoop] using h
  | succ n ih =>
      intro k j as insts h
      simp only [beamSearchLoop]
      by_cases hemp : (allActiveBeams insts).isEmpty
      · simpa [hemp] using h
      · simp only [hemp, Bool.false_eq_true, if_neg, not_false_eq_true,
          List.length_cons]
        have hnext := forall₂_stepAllInstances eos ignoreEos beamWidth sortKey
          (R j) (R (j + 1)) (fun a inst rs hr => hstep j a inst rs hr)
          (oracle k (allActiveBeams insts)) h
        have := ih (k + 1) (j + 1) as _ hnext
        have harith : j + 1 + (beamSearchLoop eos ignoreEos beamWidth sortKey oracle
            n (k + 1) (stepAllInstances eos ignoreEos beamWidth sortKey insts
              (oracle k (allActiveBeams insts)))).2.length
          = j + ((beamSearchLoop eos ignoreEos beamWidth sortKey oracle
            n (k + 1) (stepAllInstances eos ignoreEos beamWidth sortKey insts
              (oracle k (allActiveBeams insts)))).2.length + 1) := by omega
        rw [harith] at this
        exact this

theorem newBeam_tokens_length (parent : BeamSearchSequence) (lps : Logprobs)
    (e : Nat × ℚ) : (newBeam parent lps e).tokens.length
      = parent.tokens.length + 1 := by
  simp [newBeam]

/-- C6: Each expansion appends exactly one token to the parent beam's
sequence (each continuation request is a one-token generation, so the engine
oracle returns one per-position dictionary per beam), so every beam surviving
a step has length parent + 1; consequently, for the instances built by
`beam_search` from the input prompts, after the loop has executed `s` steps
every remaining active beam of the instance of prompt `p` has exactly
`len(prompt_tokens) + s` tokens. -/
theorem claim_C6_token_length_grows_by_one
    (eos : Nat) (ignoreEos : Bool) (beamWidth : Nat)
    (sortKey : BeamSearchSequence → ℚ)
    (oracle : Nat → List BeamSearchSequence → List (Option Logprobs))
    (fuel : Nat) (encode : String → List Nat)
    (prompts : List BSPrompt) (loras : List (Option Nat))
    (inst : BeamSearchInstance) (rs : List (Option Logprobs)) (L : Nat)
    (hlen : loras.length = prompts.length) :
    (∀ parent lps e, (newBeam parent lps e).tokens.length
      = parent.tokens.length + 1) ∧
    ((∀ b ∈ inst.beams, b.tokens.length = L) →
      ∀ b ∈ (stepInstance eos ignoreEos beamWidth sortKey inst rs).beams,
        b.tokens.length = L + 1) ∧
    (List.Forall₂
      (fun p i => ∀ b ∈ i.beams,
        b.tokens.length = (promptTokensOf encode p).length
          + (beamSearchLoop eos ignoreEos beamWidth sortKey oracle fuel 0
              ((loras.zip prompts).map (fun lp =>
                initInstance (promptTokensOf encode lp.2) lp.1
                  (mmdOf lp.2) (mmkOf lp.2)))).2.length)
      prompts
      (beamSearchLoop eos ignoreEos beamWidth sortKey oracle fuel 0
        ((loras.zip prompts).map (fun lp =>
          initInstance (promptTokensOf encode lp.2) lp.1
            (mmdOf lp.2) (mmkOf lp.2)))).1) := by
  have hstep1 : ∀ (L : Nat) (i : BeamSearchInstance) (rs : List (Option Logprobs)),
      (∀ b ∈ i.beams, b.tokens.length = L) →
      ∀ b ∈ (stepInstance eos ignoreEos beamWidth sortKey i rs).beams,
        b.tokens.length = L + 1 := by
    intro L i rs hL b hb
    obtain ⟨p, hp, r, _, hexp⟩ := mem_beams_stepInstance _ _ _ _ _ _ _ hb
    obtain ⟨lps, _, e, _, _, hbe⟩ := mem_expandBeam_active _ _ _ _ _ hexp
    rw [hbe, newBeam_tokens_length, hL p hp]
  refine ⟨fun parent lps e => newBeam_tokens_length parent lps e,
    hstep1 L inst rs, ?_⟩
  have hinit : List.Forall₂
      (fun (p : BSPrompt) (i : BeamSearchInstance) => ∀ b ∈ i.beams,
        b.tokens.length = (promptTokensOf encode p).length + 0)
      prompts
      ((loras.zip prompts).map (fun lp =>
        initInstance (promptTokensOf encode lp.2) lp.1
          (mmdOf lp.2) (mmkOf lp.2))) := by
    clear hstep1 inst rs L
    induction prompts generalizing loras with
    | nil => simp [List.Forall₂.nil]
    | cons p tl ih =>
        cases loras with
        | nil => simp at hlen
        | cons lr ltl =>
            simp only [List.zip_cons_cons, List.map_cons]
            refine List.Forall₂.cons ?_ (ih ltl (by simpa using hlen))
            intro b hb
            simp only [initInstance, List.mem_singleton] at hb
            subst hb
            simp
  have := beamSearchLoop_forall₂ eos ignoreEos beamWidth sortKey oracle
    (fun j p i => ∀ b ∈ i.beams,
      b.tokens.length = (promptTokensOf encode p).length + j)
    (by
      intro j p i rs2 hR
      exact fun b hb => by
        rw [hstep1 ((promptTokensOf encode p).length + j) i rs2 hR b hb]
        omega)
    fuel 0 0 prompts _ hinit
  simpa using this

/-- Witness for C6 at a concrete input: one token prompt `[5]`, two steps of a
two-candidate oracle; the hypotheses of the theorem discharged concretely. -/
theorem claim_C6_witness :
    ([(none : Option Nat)].length = [BSPrompt.tokens [5] none none].length) ∧
    List.Forall₂
      (fun p i => ∀ b ∈ i.beams,
        b.tokens.length = (promptTokensOf (fun _ => []) p).length
          + (beamSearchLoop 0 false 2 (fun b => b.cum_logprob)
              (fun _ batch => batch.map (fun _ => some [(1, -1), (2, -2)])) 2 0
              (([(none : Option Nat)].zip [BSPrompt.tokens [5] none none]).map
                (fun lp => initInstance (promptTokensOf (fun _ => []) lp.2) lp.1
                  (mmdOf lp.2) (mmkOf lp.2)))).2.length)
      [BSPrompt.tokens [5] none none]
      (beamSearchLoop 0 false 2 (fun b => b.cum_logprob)
        (fun _ batch => batch.map (fun _ => some [(1, -1), (2, -2)])) 2 0
        (([(none : Option Nat)].zip [BSPrompt.tokens [5] none none]).map
          (fun lp => initInstance (promptTokensOf (fun _ => []) lp.2) lp.1
            (mmdOf lp.2) (mmkOf lp.2)))).1 :=
  ⟨rfl,
   (claim_C6_token_length_grows_by_one 0 false 2 (fun b => b.cum_logprob)
     (fun _ batch => batch.map (fun _ => some [(1, -1), (2, -2)])) 2
     (fun _ => []) [BSPrompt.tokens [5] none none] [none]
     ⟨[], []⟩ [] 0 rfl).2.2⟩

/-- C8: A sequence-valued adapter-handle argument whose length differs from
the prompt list's fails with the shape error raised by
`_get_beam_search_lora_requests`, before anything is submitted to the engine:
the submission trace is empty. -/
theorem claim_C8_lora_length_mismatch_fails_fast
    (encode : String → List Nat) (decode : List Nat → String) (eos : Nat)
    (sortKey : BeamSearchSequence → ℚ)
    (oracle : Nat → List BeamSearchSequence → List (Option Logprobs))
    (prompts : List BSPrompt) (params : BeamSearchParams) (lrs : List Nat)
    (h : lrs.length ≠ prompts.length) :
    beam_search encode decode eos sortKey oracle prompts params (.listOf lrs)
      = (.error "Lora request list should be the same length as the prompts", []) := by
  unfold beam_search get_beam_search_lora_requests
  simp [h]

/-- Witness for C8: adapter-handle list of length 2 against 3 prompts
(scenario D). -/
theorem claim_C8_witness :
    ([4, 7].length ≠ [BSPrompt.tokens [1] none none, BSPrompt.tokens [2] none none,
      BSPrompt.tokens [3] none none].length) ∧
    beam_search (fun _ => []) (fun _ => "") 0 (fun b => b.cum_logprob)
        (fun _ batch => batch.map (fun _ => some [(1, -1)]))
        [BSPrompt.tokens [1] none none, BSPrompt.tokens [2] none none,
          BSPrompt.tokens [3] none none] ⟨2, 4, false⟩ (.listOf [4, 7])
      = (.error "Lora request list should be the same length as the prompts", []) :=
  ⟨by decide,
   claim_C8_lora_length_mismatch_fails_fast (fun _ => []) (fun _ => "") 0
     (fun b => b.cum_logprob) (fun _ batch => batch.map (fun _ => some [(1, -1)]))
     [BSPrompt.tokens [1] none none, BSPrompt.tokens [2] none none,
       BSPrompt.tokens [3] none none] ⟨2, 4, false⟩ [4, 7] (by decide)⟩

theorem length_get_beam_search_lora_requests (loraArg : LoraArg)
    (prompts : List BSPrompt) (loras : List (Option Nat))
    (h : get_beam_search_lora_requests loraArg prompts = .ok loras) :
    loras.length = prompts.length := by
  cases loraArg with
  | noneArg =>
      simp only [get_beam_search_lora_requests, Except.ok.injEq] at h
      simp [← h]
  | single lr =>
      simp only [get_beam_search_lora_requests, Except.ok.injEq] at h
      simp [← h]
  | listOf lrs =>
      simp only [get_beam_search_lora_requests] at h
      split at h <;> cases h

/-- C3: When the step loop terminates, `beam_search` returns, for each input
instance in input order, the finalization of that instance: remaining active
beams merged into the completed list, the merged set re-sorted by the
comparator, exactly the top `beam_width` kept, each decoded to text; one
`BeamSearchOutput` per input prompt. -/
theorem claim_C3_final_selection
    (encode : String → List Nat) (decode : List Nat → String) (eos : Nat)
    (sortKey : BeamSearchSequence → ℚ)
    (oracle : Nat → List BeamSearchSequence → List (Option Logprobs))
    (prompts : List BSPrompt) (params : BeamSearchParams) (loraArg : LoraArg)
    (loras : List (Option Nat))
    (h : get_beam_search_lora_requests loraArg prompts = .ok loras) :
    (∃ final trace,
      beamSearchLoop eos params.ignore_eos params.beam_width sortKey oracle
          params.max_tokens 0
          ((loras.zip prompts).map (fun lp =>
            initInstance (promptTokensOf encode lp.2) lp.1
              (mmdOf lp.2) (mmkOf lp.2)))
        = (final, trace) ∧
      beam_search encode decode eos sortKey oracle prompts params loraArg
        = (.ok (final.map (finalizeInstance params.beam_width sortKey decode)),
           trace) ∧
      final.length = prompts.length) ∧
    (∀ inst, (finalizeInstance params.beam_width sortKey decode inst).sequences
      = ((sortBeamsDesc sortKey (inst.completed ++ inst.beams)).take
          params.beam_width).map
          (fun b => { b with text := some (decode b.tokens) })) ∧
    (∀ inst, (finalizeInstance params.beam_width sortKey decode inst).sequences.length
      = min params.beam_width (inst.completed.length + inst.beams.length)) := by
  refine ⟨?_, fun inst => rfl, ?_⟩
  · refine ⟨_, _, Prod.mk.eta.symm, ?_, ?_⟩
    · unfold beam_search
      rw [h]
    · rw [length_beamSearchLoop, List.length_map, List.length_zip,
        length_get_beam_search_lora_requests loraArg prompts loras h]
      exact Nat.min_self _
  · intro inst
    simp [finalizeInstance, sortBeamsDesc, List.length_take,
      List.length_mergeSort, List.length_append, Nat.min_def]

/-- Witness for C3: one prompt, no adapter handles, `beam_width = 2`,
`max_tokens = 1`; `beam_search` succeeds with exactly one output. -/
theorem claim_C3_witness :
    get_beam_search_lora_requests .noneArg [BSPrompt.tokens [5] none none]
      = .ok [(none : Option Nat)] ∧
    (∃ outs, (beam_search (fun _ => []) (fun _ => "t") 0 (fun b => b.cum_logprob)
        (fun _ batch => batch.map (fun _ => some [(1, -1), (2, -2)]))
        [BSPrompt.tokens [5] none none] ⟨2, 1, false⟩ .noneArg).1
      = .ok outs ∧ outs.length = 1) := by
  have h : get_beam_search_lora_requests .noneArg [BSPrompt.tokens [5] none none]
      = .ok [(none : Option Nat)] := rfl
  obtain ⟨⟨final, trace, _, hbs, hlen⟩, -, -⟩ :=
    claim_C3_final_selection (fun _ => []) (fun _ => "t") 0
      (fun b => b.cum_logprob)
      (fun _ batch => batch.map (fun _ => some [(1, -1), (2, -2)]))
      [BSPrompt.tokens [5] none none] ⟨2, 1, false⟩ .noneArg
      [(none : Option Nat)] h
  exact ⟨h, final.map (finalizeInstance 2 (fun b => b.cum_logprob) (fun _ => "t")),
    by rw [hbs], by simpa using hlen⟩

/-! ### Helper lemmas for the submission pipeline -/

theorem forceFinalOnly_none_no_error (store : SPStore) (pvs : List ParamValue) :
    (forceFinalOnly none store pvs).2 = none := by
  induction pvs generalizing store with
  | nil => rfl
  | cons hd tl ih =>
      cases hd with
      | pooling pp => exact ih store
      | sampling ref => exact ih _

theorem forceFinalOnly_none_length (store : SPStore) (pvs : List ParamValue) :
    (forceFinalOnly none store pvs).1.length = store.length := by
  induction pvs generalizing store with
  | nil => rfl
  | cons hd tl ih =>
      cases hd with
      | pooling pp => exact ih store
      | sampling ref =>
          have h2 := ih (store.set ref
            { store.getD ref default with output_kind := .finalOnly })
          rw [List.length_set] at h2
          exact h2

theorem forceFinalOnly_none_not_mem (store : SPStore) (pvs : List ParamValue)
    (r : Nat) (hr : ParamValue.sampling r ∉ pvs) :
    (forceFinalOnly none store pvs).1[r]? = store[r]? := by
  induction pvs generalizing store with
  | nil => rfl
  | cons hd tl ih =>
      cases hd with
      | pooling pp =>
          exact ih store (fun hmem => hr (List.mem_cons_of_mem _ hmem))
      | sampling ref =>
          have hne : ref ≠ r := fun he =>
            hr (he ▸ List.mem_cons_self _ _)
          have h2 := ih (store.set ref
              { store.getD ref default with output_kind := .finalOnly })
            (fun hmem => hr (List.mem_cons_of_mem _ hmem))
          rw [List.getElem?_set_ne hne] at h2
          exact h2

theorem forceFinalOnly_none_mem (store : SPStore) (pvs : List ParamValue)
    (r : Nat) (hmem : ParamValue.sampling r ∈ pvs) (hlt : r < store.length) :
    (forceFinalOnly none store pvs).1[r]?
      = some { store.getD r default with output_kind := .finalOnly } := by
  induction pvs generalizing store with
  | nil => simp at hmem
  | cons hd tl ih =>
      cases hd with
      | pooling pp =>
          have htl : ParamValue.sampling r ∈ tl := by
            rcases List.mem_cons.mp hmem with h | h
            · cases h
            · exact h
          exact ih store htl hlt
      | sampling ref =>
          by_cases hcase : ParamValue.sampling r ∈ tl
          · have hlt2 : r < (store.set ref
                { store.getD ref default with output_kind := .finalOnly }).length := by
              rwa [List.length_set]
            have h2 := ih (store.set ref
              { store.getD ref default with output_kind := .finalOnly }) hcase hlt2
            by_cases hrr : ref = r
            · subst hrr
              have h1 : (store.set ref
                  { store.getD ref default with output_kind := .finalOnly }).getD ref default
                  = { store.getD ref default with output_kind := .finalOnly } := by
                rw [List.getD_eq_getElem?_getD, List.getElem?_set_self hlt]
                rfl
              rw [h1] at h2
              exact h2
            · have h1 : (store.set ref
                  { store.getD ref default with output_kind := .finalOnly }).getD r default
                  = store.getD r default := by
                rw [List.getD_eq_getElem?_getD, List.getElem?_set_ne hrr,
                  List.getD_eq_getElem?_getD]
              rw [h1] at h2
              exact h2
          · have hrr : ref = r := by
              rcases List.mem_cons.mp hmem with h | h
              · cases h; rfl
              · exact absurd h hcase
            subst hrr
            have h2 := forceFinalOnly_none_not_mem (store.set ref
              { store.getD ref default with output_kind := .finalOnly }) tl ref hcase
            rw [List.getElem?_set_self hlt] at h2
            exact h2

theorem submitLoop_none_spec (params : ParamsArg) (loraArg : LoraArg)
    (priority : Option (List Nat)) :
    ∀ (ps : List Prompt) (i : Nat) (st st' : LLMState),
      submitLoop params loraArg priority ps i st = (st', none) →
      st'.counter = st.counter + ps.length ∧
      st'.engine.map (fun r => r.request_id)
        = st.engine.map (fun r => r.request_id) ++ List.range' st.counter ps.length ∧
      st'.engine.map (fun r => r.prompt)
        = st.engine.map (fun r => r.prompt) ++ ps ∧
      (∀ req ∈ st'.engine, req ∈ st.engine ∨ ∃ j, req.params = paramAt params j) := by
  intro ps
  induction ps with
  | nil =>
      intro i st st' h
      simp only [submitLoop] at h
      cases h
      exact ⟨by simp, by simp, by simp, fun req hreq => Or.inl hreq⟩
  | cons p rest ih =>
      intro i st st' h
      simp only [submitLoop] at h
      cases hpr : priorityAt priority i with
      | none => rw [hpr] at h; cases h
      | some pr =>
          rw [hpr] at h
          obtain ⟨h1, h2, h3, h4⟩ := ih (i + 1) _ st' h
          refine ⟨?_, ?_, ?_, ?_⟩
          · simp only [add_request, List.length_cons] at h1 ⊢
            omega
          · rw [h2]
            simp [add_request, List.range'_succ, List.append_assoc]
          · rw [h3]
            simp [add_request, List.append_assoc]
          · intro req hreq
            rcases h4 req hreq with hmem | hex
            · simp only [add_request, List.mem_append, List.mem_singleton] at hmem
              rcases hmem with hmem | hmem
              · exact Or.inl hmem
              · exact Or.inr ⟨i, by rw [hmem]⟩
            · exact Or.inr hex

theorem mutateAndSubmit_none_inversion (ps : List Prompt) (params : ParamsArg)
    (loraArg : LoraArg) (guided_options : Option Nat)
    (priority : Option (List Nat)) (store store' : SPStore) (st st' : LLMState)
    (h : validate_and_add_requests.mutateAndSubmit ps params loraArg
        guided_options priority store st = ((store', st'), none)) :
    forceFinalOnly guided_options store params.iter = (store', none) ∧
    submitLoop params loraArg priority ps 0 st = (st', none) := by
  unfold validate_and_add_requests.mutateAndSubmit at h
  rcases hFF : forceFinalOnly guided_options store params.iter with ⟨store1, e⟩
  cases e with
  | some e1 =>
      rw [hFF] at h
      have h5 : some e1 = (none : Option String) := congrArg (fun x => x.2) h
      cases h5
  | none =>
      rw [hFF] at h
      rcases hSL : submitLoop params loraArg priority ps 0 st with ⟨st1, err⟩
      rw [hSL] at h
      have h3 : store1 = store' := congrArg (fun x => x.1.1) h
      have h4 : st1 = st' := congrArg (fun x => x.1.2) h
      have h5 : err = none := congrArg (fun x => x.2) h
      exact ⟨by rw [h3], by rw [h4, h5]⟩

theorem validateLora_none_inversion (ps : List Prompt) (params : ParamsArg)
    (loraArg : LoraArg) (guided_options : Option Nat)
    (priority : Option (List Nat)) (store store' : SPStore) (st st' : LLMState)
    (h : validate_and_add_requests.validateLora ps params loraArg
        guided_options priority store st = ((store', st'), none)) :
    forceFinalOnly guided_options store params.iter = (store', none) ∧
    submitLoop params loraArg priority ps 0 st = (st', none) := by
  cases loraArg with
  | noneArg => exact mutateAndSubmit_none_inversion _ _ _ _ _ _ _ _ _ h
  | single lr => exact mutateAndSubmit_none_inversion _ _ _ _ _ _ _ _ _ h
  | listOf ls =>
      have h2 : (if ls.length ≠ ps.length then
          ((store, st),
            some "The lengths of prompts and lora_request must be the same.")
        else validate_and_add_requests.mutateAndSubmit ps params (.listOf ls)
          guided_options priority store st) = ((store', st'), none) := h
      by_cases hl : ls.length ≠ ps.length
      · rw [if_pos hl] at h2
        have h5 : some "The lengths of prompts and lora_request must be the same."
            = (none : Option String) := congrArg (fun x => x.2) h2
        cases h5
      · rw [if_neg hl] at h2
        exact mutateAndSubmit_none_inversion _ _ _ _ _ _ _ _ _ h2

theorem validate_none_inversion (prompts : PromptsArg) (params : ParamsArg)
    (loraArg : LoraArg) (guided_options : Option Nat)
    (priority : Option (List Nat)) (store store' : SPStore) (st st' : LLMState)
    (h : validate_and_add_requests prompts params loraArg guided_options
        priority store st = ((store', st'), none)) :
    forceFinalOnly guided_options store params.iter = (store', none) ∧
    submitLoop params loraArg priority prompts.toList 0 st = (st', none) := by
  cases params with
  | single p =>
      have h2 : validate_and_add_requests.validateLora prompts.toList
          (.single p) loraArg guided_options priority store st
          = ((store', st'), none) := h
      exact validateLora_none_inversion _ _ _ _ _ _ _ _ _ h2
  | listOf l =>
      have h2 : (if l.length ≠ prompts.toList.length then
          ((store, st),
            some "The lengths of prompts and params must be the same.")
        else validate_and_add_requests.validateLora prompts.toList (.listOf l)
          loraArg guided_options priority store st) = ((store', st'), none) := h
      by_cases hl : l.length ≠ prompts.toList.length
      · rw [if_pos hl] at h2
        have h5 : some "The lengths of prompts and params must be the same."
            = (none : Option String) := congrArg (fun x => x.2) h2
        cases h5
      · rw [if_neg hl] at h2
        exact validateLora_none_inversion _ _ _ _ _ _ _ _ _ h2

/-- The output built for a pending request once it finishes. -/
def finOut (r : EngineRequest) : StepOutput :=
  { request_id := r.request_id, finished := true, prompt := r.prompt }

theorem runEngineLoop_perm_aux (n : Nat) :
    ∀ (pending : List (EngineRequest × Nat)) (acc : List StepOutput),
      pendingMeasure pending ≤ n →
      (runEngineLoop pending acc).Perm
        (acc ++ pending.map (fun rd => finOut rd.1)) := by
  induction n with
  | zero =>
      intro pending acc hn
      have hp : pending = [] := by
        cases pending with
        | nil => rfl
        | cons hd tl => simp [pendingMeasure] at hn
      subst hp
      rw [runEngineLoop]
      simp
  | succ n ih =>
      intro pending acc hn
      by_cases hp : pending = []
      · subst hp
        rw [runEngineLoop]
        simp
      · rw [runEngineLoop, dif_neg hp]
        have hm : pendingMeasure (engineStep pending).2 ≤ n :=
          Nat.lt_succ_iff.mp
            (lt_of_lt_of_le (pendingMeasure_engineStep_lt pending hp) hn)
        refine (ih _ _ hm).trans ?_
        rw [List.append_assoc]
        refine List.Perm.append_left acc ?_
        have hfil : ((engineStep pending).1.filter (fun o => o.finished))
            = ((pending.map (fun rd : EngineRequest × Nat => (rd.1, rd.2 - 1))).filter
                (fun rd : EngineRequest × Nat => rd.2 == 0)).map
                (fun rd : EngineRequest × Nat => finOut rd.1) := by
          simp only [engineStep]
          rw [List.filter_map]
          refine List.map_congr_left ?_
          intro rd hrd
          have hz : (rd.2 == 0) = true := (List.mem_filter.mp hrd).2
          simp only [finOut]
          rw [hz]
        rw [hfil]
        have hnext : (engineStep pending).2.map
              (fun rd : EngineRequest × Nat => finOut rd.1)
            = ((pending.map (fun rd : EngineRequest × Nat => (rd.1, rd.2 - 1))).filter
                (fun rd : EngineRequest × Nat => rd.2 != 0)).map
                (fun rd : EngineRequest × Nat => finOut rd.1) := rfl
        rw [hnext, ← List.map_append]
        have hperm : ((((pending.map
                (fun rd : EngineRequest × Nat => (rd.1, rd.2 - 1))).filter
              (fun rd : EngineRequest × Nat => rd.2 == 0)))
            ++ ((pending.map (fun rd : EngineRequest × Nat => (rd.1, rd.2 - 1))).filter
              (fun rd : EngineRequest × Nat => rd.2 != 0))).Perm
            (pending.map (fun rd : EngineRequest × Nat => (rd.1, rd.2 - 1))) :=
          List.filter_append_perm (fun rd : EngineRequest × Nat => rd.2 == 0) _
        refine (hperm.map (fun rd : EngineRequest × Nat => finOut rd.1)).trans ?_
        rw [List.map_map]
        exact List.Perm.refl _

theorem runEngineLoop_perm (pending : List (EngineRequest × Nat))
    (acc : List StepOutput) :
    (runEngineLoop pending acc).Perm
      (acc ++ pending.map (fun rd => finOut rd.1)) :=
  runEngineLoop_perm_aux (pendingMeasure pending) pending acc (le_refl _)

theorem run_engine_eq (durations : Nat → Nat) (st : LLMState)
    (hsort : List.Pairwise (· < ·) (st.engine.map (fun r => r.request_id))) :
    run_engine durations st = st.engine.map finOut := by
  haveI : IsAntisymm StepOutput (fun a b => a.request_id < b.request_id) :=
    ⟨fun a b h1 h2 => absurd h1 (by omega)⟩
  have hperm : (run_engine durations st).Perm (st.engine.map finOut) := by
    unfold run_engine sortByRequestId
    refine (List.mergeSort_perm _ _).trans ?_
    refine (runEngineLoop_perm _ []).trans ?_
    rw [List.nil_append, List.map_map]
    exact List.Perm.refl _
  have hsorted1 : List.Pairwise
      (fun a b : StepOutput => a.request_id ≤ b.request_id)
      (run_engine durations st) := by
    have hms := @List.sorted_mergeSort StepOutput
      (fun a b : StepOutput => decide (a.request_id ≤ b.request_id))
      (fun a b c hab hbc => by
        simp only [decide_eq_true_eq] at *
        omega)
      (fun a b => by
        simp only [Bool.or_eq_true, decide_eq_true_eq]
        omega)
      (runEngineLoop (st.engine.map (fun r => (r, durations r.request_id))) [])
    exact hms.imp (fun hab => of_decide_eq_true hab)
  have hnodup : List.Pairwise
      (fun a b : StepOutput => a.request_id ≠ b.request_id)
      (run_engine durations st) := by
    have h0 : st.engine.map ((fun o : StepOutput => o.request_id) ∘ finOut)
        = st.engine.map (fun r => r.request_id) :=
      List.map_congr_left (fun a _ => rfl)
    have h1 : ((st.engine.map finOut).map (fun o => o.request_id)).Nodup := by
      rw [List.map_map, h0]
      exact hsort.imp (fun hab => Nat.ne_of_lt hab)
    have h2 : ((run_engine durations st).map (fun o => o.request_id)).Nodup :=
      ((hperm.map (fun o => o.request_id)).nodup_iff).mpr h1
    exact List.pairwise_map.mp h2
  have hstrict : List.Pairwise
      (fun a b : StepOutput => a.request_id < b.request_id)
      (run_engine durations st) :=
    (hsorted1.and hnodup).imp (fun hab => Nat.lt_of_le_of_ne hab.1 hab.2)
  have htarget : List.Pairwise
      (fun a b : StepOutput => a.request_id < b.request_id)
      (st.engine.map finOut) :=
    List.pairwise_map.mpr ((List.pairwise_map.mp hsort).imp (fun hab => hab))
  exact List.eq_of_perm_of_sorted hperm hstrict htarget

/-- C1: For a batch submitted by one call from a fresh state (the drain loop
only observes requests this call submitted), the drain loop + collator return
exactly N finished outputs sorted by ascending numeric request identifier,
`output[i]` carrying identifier `counter + i` and the payload of the i-th
submitted prompt — for every engine completion schedule (`durations`). -/
theorem claim_C1_outputs_in_submission_order
    (prompts : PromptsArg) (params : ParamsArg) (loraArg : LoraArg)
    (guided_options : Option Nat) (priority : Option (List Nat))
    (store store' : SPStore) (st st' : LLMState) (durations : Nat → Nat)
    (hengine : st.engine = [])
    (h : validate_and_add_requests prompts params loraArg guided_options
        priority store st = ((store', st'), none)) :
    (run_engine durations st').length = prompts.toList.length ∧
    (run_engine durations st').map (fun o => o.request_id)
      = List.range' st.counter prompts.toList.length ∧
    (run_engine durations st').map (fun o => o.prompt) = prompts.toList ∧
    ∀ o ∈ run_engine durations st', o.finished = true := by
  obtain ⟨-, hSL⟩ := validate_none_inversion _ _ _ _ _ _ _ _ _ h
  obtain ⟨h1, h2, h3, h4⟩ := submitLoop_none_spec _ _ _ _ 0 _ _ hSL
  rw [hengine] at h2 h3
  simp only [List.map_nil, List.nil_append] at h2 h3
  have hsort : List.Pairwise (· < ·)
      (st'.engine.map (fun r => r.request_id)) := by
    rw [h2]
    exact List.pairwise_lt_range' ..
  have heq := run_engine_eq durations st' hsort
  rw [heq]
  have hlen : st'.engine.length = prompts.toList.length := by
    have hc := congrArg List.length h2
    rw [List.length_map, List.length_range'] at hc
    exact hc
  refine ⟨?_, ?_, ?_, ?_⟩
  · rw [List.length_map]
    exact hlen
  · rw [List.map_map]
    have hcomp : st'.engine.map ((fun o : StepOutput => o.request_id) ∘ finOut)
        = st'.engine.map (fun r => r.request_id) :=
      List.map_congr_left (fun a _ => rfl)
    rw [hcomp, h2]
  · rw [List.map_map]
    have hcomp : st'.engine.map ((fun o : StepOutput => o.prompt) ∘ finOut)
        = st'.engine.map (fun r => r.prompt) :=
      List.map_congr_left (fun a _ => rfl)
    rw [hcomp, h3]
  · intro o ho
    obtain ⟨r, -, hr⟩ := List.mem_map.mp ho
    rw [← hr]
    rfl

/-- Witness for C1: two prompts submitted from a fresh state; the engine
finishes request 1 (one tick) before request 0 (three ticks), yet the collated
output is `[0, 1]` with the prompts in input order. -/
theorem claim_C1_witness :
    validate_and_add_requests (.listOf [10, 20]) (.single (.sampling 0))
      .noneArg none none [⟨.cumulative, none, 5⟩] ⟨0, []⟩
      = (([⟨.finalOnly, none, 5⟩],
          ⟨2, [⟨0, 10, .sampling 0, none, 0⟩, ⟨1, 20, .sampling 0, none, 0⟩]⟩),
         none) ∧
    (run_engine (fun rid => if rid = 0 then 3 else 1)
        ⟨2, [⟨0, 10, .sampling 0, none, 0⟩, ⟨1, 20, .sampling 0, none, 0⟩]⟩).map
        (fun o => o.request_id)
      = List.range' 0 2 ∧
    (run_engine (fun rid => if rid = 0 then 3 else 1)
        ⟨2, [⟨0, 10, .sampling 0, none, 0⟩, ⟨1, 20, .sampling 0, none, 0⟩]⟩).map
        (fun o => o.prompt)
      = [10, 20] := by
  have h : validate_and_add_requests (.listOf [10, 20]) (.single (.sampling 0))
      .noneArg none none [⟨.cumulative, none, 5⟩] ⟨0, []⟩
      = (([⟨.finalOnly, none, 5⟩],
          ⟨2, [⟨0, 10, .sampling 0, none, 0⟩, ⟨1, 20, .sampling 0, none, 0⟩]⟩),
         none) := by decide
  obtain ⟨-, hids, hprompts, -⟩ := claim_C1_outputs_in_submission_order
    (.listOf [10, 20]) (.single (.sampling 0)) .noneArg none none
    [⟨.cumulative, none, 5⟩] [⟨.finalOnly, none, 5⟩] ⟨0, []⟩
    ⟨2, [⟨0, 10, .sampling 0, none, 0⟩, ⟨1, 20, .sampling 0, none, 0⟩]⟩
    (fun rid => if rid = 0 then 3 else 1) rfl h
  exact ⟨h, hids, hprompts⟩

/-- C2 counterexample: the `priority` argument's length is not validated.
With one prompt and a priority list of length 2, the call succeeds (no shape
error), submits the request and consumes an identifier — contradicting the
claim that any sequence-valued priority argument of mismatched length fails
before submission. -/
theorem claim_C2_counterexample :
    [0, 0].length ≠ (PromptsArg.listOf [3]).toList.length ∧
    (validate_and_add_requests (.listOf [3]) (.single (.sampling 0)) .noneArg
      none (some [0, 0]) [⟨.cumulative, none, 5⟩] ⟨0, []⟩).2 = none ∧
    ((validate_and_add_requests (.listOf [3]) (.single (.sampling 0)) .noneArg
      none (some [0, 0]) [⟨.cumulative, none, 5⟩] ⟨0, []⟩).1.2).engine.length = 1 ∧
    ((validate_and_add_requests (.listOf [3]) (.single (.sampling 0)) .noneArg
      none (some [0, 0]) [⟨.cumulative, none, 5⟩] ⟨0, []⟩).1.2).counter = 1 := by
  decide

/-- C2 (amended): For every call whose sequence-valued `params` or
`lora_request` argument's length differs from the number of prompts, the call
fails with a shape error before any request is submitted, with no partial
side effects: the store of caller-owned `SamplingParams`, the engine's
unfinished-request set and the request counter are all returned unchanged.
(`priority` is not length-checked; see the counterexample.) -/
theorem claim_C2_shape_errors_no_side_effects
    (prompts : PromptsArg) (params : ParamsArg) (loraArg : LoraArg)
    (guided_options : Option Nat) (priority : Option (List Nat))
    (store : SPStore) (st : LLMState)
    (h : (∃ l, params = ParamsArg.listOf l ∧ l.length ≠ prompts.toList.length) ∨
         (∃ ls, loraArg = LoraArg.listOf ls ∧ ls.length ≠ prompts.toList.length)) :
    ∃ e, validate_and_add_requests prompts params loraArg guided_options
        priority store st = ((store, st), some e) := by
  have hparamsBad : ∀ (l : List ParamValue), l.length ≠ prompts.toList.length →
      validate_and_add_requests prompts (.listOf l) loraArg guided_options
        priority store st
      = ((store, st), some "The lengths of prompts and params must be the same.") := by
    intro l hlen
    have hred : validate_and_add_requests prompts (.listOf l) loraArg
        guided_options priority store st
        = if l.length ≠ prompts.toList.length then
            ((store, st), some "The lengths of prompts and params must be the same.")
          else validate_and_add_requests.validateLora prompts.toList (.listOf l)
            loraArg guided_options priority store st := rfl
    rw [hred, if_pos hlen]
  have hloraBad : ∀ (ls : List Nat), ls.length ≠ prompts.toList.length →
      ∀ (params2 : ParamsArg),
      validate_and_add_requests.validateLora prompts.toList params2 (.listOf ls)
        guided_options priority store st
      = ((store, st), some "The lengths of prompts and lora_request must be the same.") := by
    intro ls hlen params2
    have hred : validate_and_add_requests.validateLora prompts.toList params2
        (.listOf ls) guided_options priority store st
        = if ls.length ≠ prompts.toList.length then
            ((store, st),
              some "The lengths of prompts and lora_request must be the same.")
          else validate_and_add_requests.mutateAndSubmit prompts.toList params2
            (.listOf ls) guided_options priority store st := rfl
    rw [hred, if_pos hlen]
  rcases h with ⟨l, hp, hlen⟩ | ⟨ls, hl, hlen⟩
  · subst hp
    exact ⟨_, hparamsBad l hlen⟩
  · subst hl
    cases params with
    | single p =>
        refine ⟨"The lengths of prompts and lora_request must be the same.", ?_⟩
        have hred : validate_and_add_requests prompts (.single p) (.listOf ls)
            guided_options priority store st
            = validate_and_add_requests.validateLora prompts.toList (.single p)
              (.listOf ls) guided_options priority store st := rfl
        rw [hred, hloraBad ls hlen (.single p)]
    | listOf l =>
        by_cases hpl : l.length ≠ prompts.toList.length
        · exact ⟨_, hparamsBad l hpl⟩
        · refine ⟨"The lengths of prompts and lora_request must be the same.", ?_⟩
          have hred : validate_and_add_requests prompts (.listOf l) (.listOf ls)
              guided_options priority store st
              = if l.length ≠ prompts.toList.length then
                  ((store, st),
                    some "The lengths of prompts and params must be the same.")
                else validate_and_add_requests.validateLora prompts.toList
                  (.listOf l) (.listOf ls) guided_options priority store st := rfl
          rw [hred, if_neg hpl, hloraBad ls hlen (.listOf l)]

/-- Witness for C2 (amended): an adapter-handle list of length 2 against one
prompt fails with a shape error, leaving store and state untouched. -/
theorem claim_C2_witness :
    (LoraArg.listOf [1, 2] = LoraArg.listOf [1, 2] ∧
      [1, 2].length ≠ (PromptsArg.listOf [3]).toList.length) ∧
    ∃ e, validate_and_add_requests (.listOf [3]) (.single (.sampling 0))
        (.listOf [1, 2]) none none [⟨.cumulative, none, 5⟩] ⟨0, []⟩
      = (([⟨.cumulative, none, 5⟩], ⟨0, []⟩), some e) :=
  ⟨⟨rfl, by decide⟩,
   claim_C2_shape_errors_no_side_effects (.listOf [3]) (.single (.sampling 0))
     (.listOf [1, 2]) none none [⟨.cumulative, none, 5⟩] ⟨0, []⟩
     (Or.inr ⟨[1, 2], rfl, by decide⟩)⟩

/-- C10: A successful submission call sets `output_kind := FINAL_ONLY` in
place on every caller-supplied `SamplingParams` object (no guided-decoding
options given), leaving every other field and every other object unchanged;
in the broadcast case all submitted requests share the single caller-owned
object, so the caller observes the mutation after the call returns. -/
theorem claim_C10_sampling_params_mutated_in_place
    (prompts : PromptsArg) (params : ParamsArg) (loraArg : LoraArg)
    (priority : Option (List Nat)) (store store' : SPStore)
    (st st' : LLMState) (r : Nat)
    (h : validate_and_add_requests prompts params loraArg none priority
        store st = ((store', st'), none))
    (hr : ParamValue.sampling r ∈ params.iter) (hlt : r < store.length) :
    store'.length = store.length ∧
    store'[r]? = some { store.getD r default with output_kind := .finalOnly } ∧
    (∀ q, ParamValue.sampling q ∉ params.iter → store'[q]? = store[q]?) ∧
    (∀ pv, params = ParamsArg.single pv →
      ∀ req ∈ st'.engine, req ∈ st.engine ∨ req.params = pv) := by
  obtain ⟨hFF, hSL⟩ := validate_none_inversion _ _ _ _ _ _ _ _ _ h
  have hstore : (forceFinalOnly none store params.iter).1 = store' := by
    rw [hFF]
  refine ⟨?_, ?_, ?_, ?_⟩
  · rw [← hstore]
    exact forceFinalOnly_none_length store params.iter
  · rw [← hstore]
    exact forceFinalOnly_none_mem store params.iter r hr hlt
  · intro q hq
    rw [← hstore]
    exact forceFinalOnly_none_not_mem store params.iter q hq
  · intro pv hpv req hreq
    obtain ⟨-, -, -, h4⟩ := submitLoop_none_spec _ _ _ _ 0 _ _ hSL
    rcases h4 req hreq with hmem | ⟨j, hj⟩
    · exact Or.inl hmem
    · right
      rw [hj, hpv]
      rfl

/-- Witness for C10: a single broadcast `SamplingParams` object (reference 0)
with two prompts: after the call the object's `output_kind` is `FINAL_ONLY`,
its other fields are untouched, and both submitted requests share it. -/
theorem claim_C10_witness :
    validate_and_add_requests (.listOf [10, 20]) (.single (.sampling 0))
      .noneArg none none [⟨.cumulative, none, 7⟩] ⟨0, []⟩
      = (([⟨.finalOnly, none, 7⟩],
          ⟨2, [⟨0, 10, .sampling 0, none, 0⟩, ⟨1, 20, .sampling 0, none, 0⟩]⟩),
         none) ∧
    [(⟨.finalOnly, none, 7⟩ : SamplingParams)][0]?
      = some { ([⟨.cumulative, none, 7⟩] :
          SPStore).getD 0 default with output_kind := .finalOnly } ∧
    (∀ req ∈ (⟨2, [⟨0, 10, .sampling 0, none, 0⟩,
        ⟨1, 20, .sampling 0, none, 0⟩]⟩ : LLMState).engine,
      req ∈ (⟨0, []⟩ : LLMState).engine ∨ req.params = .sampling 0) := by
  have h : validate_and_add_requests (.listOf [10, 20]) (.single (.sampling 0))
      .noneArg none none [⟨.cumulative, none, 7⟩] ⟨0, []⟩
      = (([⟨.finalOnly, none, 7⟩],
          ⟨2, [⟨0, 10, .sampling 0, none, 0⟩, ⟨1, 20, .sampling 0, none, 0⟩]⟩),
         none) := by decide
  obtain ⟨-, hmem, -, hshare⟩ := claim_C10_sampling_params_mutated_in_place
    (.listOf [10, 20]) (.single (.sampling 0)) .noneArg none
    [⟨.cumulative, none, 7⟩] [⟨.finalOnly, none, 7⟩] ⟨0, []⟩
    ⟨2, [⟨0, 10, .sampling 0, none, 0⟩, ⟨1, 20, .sampling 0, none, 0⟩]⟩
    0 h (by decide) (by decide)
  exact ⟨h, hmem, hshare (.sampling 0) rfl⟩

end VLLM
